import Mathlib

/-!
Verification of the pairwise ranking engine of the `dual` repository against its
specification.

The development shallowly embeds the Python sources:

* `src/dual/elo.py` — the Score Model (`elo.predict`, `elo.new_score`);
* `src/dual/strategy/__init__.py` — `RoundFilter`, `KeepWinner`,
  `PoolStrategy.next_pair`, `TopRated.next_pair`;
* `src/dual/strategy/bisect.py` — the `Bisect` strategy: its ranking queries,
  `reset_track`, `get_at_index`, `new_score`, `register_rating` and `next_pair`.

Modelling conventions:

* Python floats are modelled as `ℚ`; nullable scores as `Option ℚ`.  Python
  truthiness on a nullable float (`not a` is true for both `None` and `0.0`)
  is `truthy` below.
* Python computes `10 ** ((b - a) / k)` on floats; real exponentiation is not
  rational, so the base-10 exponential is an explicit function parameter
  `tenPow : ℚ → ℚ` of every definition that needs it.  Every claim proved here
  holds for an arbitrary `tenPow`; concrete evaluations use `tenPowDemo`,
  which agrees with `10 ^ x` at `x = 0` (the only point where the claims are
  sensitive to its value).
* The item store (a SQLite database of `beets` items) is external.  A query
  environment `Env` carries the result sequences of the two static queries of
  `bisect.py` (`_ranking_query`, refined: scored items in score-descending
  order; `_source_query`, refined and ordered for the session mode), a lookup
  of an item's refreshed score by id, and the round filter's membership test
  as an abstract predicate.  The dynamic `WHERE id NOT IN disqualified`
  clauses are applied to those sequences inside the embedding, as in the SQL.
* Python exceptions (`AttributeError` on `None.id`/`None.title`,
  `DoesNotExist` from `.get()`, `ValueError` from `random.sample`) are the
  `exn` result; the unbounded retry recursion of `Bisect.next_pair` and its
  unbounded round-filter skip loop are given fuel, with exhausted fuel the
  `hang` result.
* Python `//` on ints is floor division, embedded as `Int.fdiv`; a negative
  OFFSET is treated as `0` by SQLite, matching `Int.toNat` on a negative
  index.
-/

/-- An item as the strategies see it: an id plus a nullable score.  The many
other columns of `dual/db/item.py` are never read by the code under
verification. -/
structure Item where
  id : ℕ
  score : Option ℚ
deriving DecidableEq

/-- `UserResponse` from `dual/strategy/__init__.py`. -/
inductive UserResponse where
  | win
  | lose
  | draw
deriving DecidableEq

/-- `UserResponse.__float__`. -/
def UserResponse.toFloat : UserResponse → ℚ
  | .win => 1
  | .lose => 0
  | .draw => 1 / 2

/-- Python truthiness of a nullable float: `None` and `0.0` are falsy. -/
def truthy : Option ℚ → Bool
  | none => false
  | some v => v != 0

namespace elo

/-- `elo.predict(a, b, k) = 1 / (1 + 10 ** ((b - a) / k))`, with the base-10
exponential abstracted as `tenPow`. -/
def predict (tenPow : ℚ → ℚ) (a b k : ℚ) : ℚ :=
  1 / (1 + tenPow ((b - a) / k))

/-- `elo.new_score(a, b, score, k=2)`:

```
if not a or not b:
    k = 2
a = a or b or 1000
b = b or a
expected = predict(a, b, k)
delta = k * (score - expected)
return a + delta, b - delta
```

`a0`/`b0` are the nullable inputs; `k0` is the caller's `k` (the Python
default is `2`). -/
def new_score (tenPow : ℚ → ℚ) (a0 b0 : Option ℚ) (score k0 : ℚ) : ℚ × ℚ :=
  let k : ℚ := if !truthy a0 || !truthy b0 then 2 else k0
  let a : ℚ := if truthy a0 then a0.getD 0 else if truthy b0 then b0.getD 0 else 1000
  let b : ℚ := if truthy b0 then b0.getD 0 else a
  let expected := predict tenPow a b k
  let delta := k * (score - expected)
  (a + delta, b - delta)

end elo

/-- A concrete stand-in for `fun x => (10 : ℚ) ^ x` used only to instantiate
closed evaluations; it agrees with the real base-10 exponential at `0`
(`tenPowDemo 0 = 1`), the only input the evaluated claims depend on. -/
def tenPowDemo : ℚ → ℚ := fun x => 1 + x

namespace Bisect

/-- `Bisect.new_score(song1, song2, response)` from `dual/strategy/bisect.py`:

```
song1_old = song1.score
song2_old = song2.score
song1_parent, song2_parent = elo.new_score(song1.score, song2.score, float(response), k=1)
if response == UserResponse.WIN:
    return max(song1_old, song2_old + 0.01), song2_parent
elif response == UserResponse.LOSE:
    return song1_parent, max(song1_old, song2_old + 0.01)
return song1_old, song2_old
```

`s1`/`s2` are the two present scores (Python `max` raises on `None`, so the
function is embedded on present scores, as the claims assume). -/
def new_score (tenPow : ℚ → ℚ) (s1 s2 : ℚ) (response : UserResponse) : ℚ × ℚ :=
  let parents := elo.new_score tenPow (some s1) (some s2) response.toFloat 1
  match response with
  | .win => (max s1 (s2 + 1 / 100), parents.2)
  | .lose => (parents.1, max s1 (s2 + 1 / 100))
  | .draw => (s1, s2)

end Bisect

/-- Modelled from the spec: the `BloomFilter` base class imported from
`dual.bloom` — the module `dual/bloom.py` is not among the repository sources,
only its subclasses and callers are.  Spec §3/§4.2: a fixed bit array of `M`
bits with `K` independent hash functions over keys of type `κ`; `add` sets the
`K` bits of a key, `possibly_contains` tests whether all `K` are set.  The
hash family is carried in the filter so that insertion preserves it. -/
structure BloomFilter (κ : Type) (M K : ℕ) where
  hashes : Fin K → κ → Fin M
  bits : Finset (Fin M)

/-- Modelled from the spec: `BloomFilter.add` sets the `K` bits of the key. -/
def BloomFilter.add {κ : Type} {M K : ℕ} (f : BloomFilter κ M K) (x : κ) :
    BloomFilter κ M K :=
  { f with bits := f.bits ∪ Finset.univ.image fun i => f.hashes i x }

/-- Modelled from the spec: `BloomFilter.possibly_contains` is true when every
one of the key's `K` bits is set. -/
def BloomFilter.possibly_contains {κ : Type} {M K : ℕ} (f : BloomFilter κ M K)
    (x : κ) : Bool :=
  decide (∀ i : Fin K, f.hashes i x ∈ f.bits)

/-- `RoundFilter` from `dual/strategy/__init__.py`: a bloom filter sized
`super().__init__(int(87e3), 30)` over canonical pair keys. -/
def RoundFilter : Type := BloomFilter (ℕ × ℕ) 87000 30

/-- `RoundFilter._as_string(ta, tb)` sorts the two ids and joins them into the
key `f"{aid}-{bid}"`; the string is determined by, and determines, the ordered
pair `(min, max)`, which is used as the key directly. -/
def RoundFilter.as_string (ta tb : Item) : ℕ × ℕ :=
  (min ta.id tb.id, max ta.id tb.id)

/-- `RoundFilter.add(pair)`. -/
def RoundFilter.add (f : RoundFilter) (p : Item × Item) : RoundFilter :=
  BloomFilter.add f (RoundFilter.as_string p.1 p.2)

/-- `RoundFilter.possibly_contains(pair)`. -/
def RoundFilter.possibly_contains (f : RoundFilter) (p : Item × Item) : Bool :=
  BloomFilter.possibly_contains f (RoundFilter.as_string p.1 p.2)

/-- The session bookkeeping of `KeepWinner` (and its base
`TrackResultsStrategy`) from `dual/strategy/__init__.py`: per-id win/loss
counts, the two streak counters, and the cumulative winner/loser id sets.
The bloom-filter insertion performed by `TrackResultsStrategy.register_rating`
is the `RoundFilter.add` above; the filter's membership test enters the
`next_pair` embeddings as an abstract predicate, so the filter value itself is
not carried in this record. -/
structure KWState where
  win_counts : ℕ → ℕ
  loss_counts : ℕ → ℕ
  win_streak : ℕ
  loss_streak : ℕ
  winners : Finset ℕ
  losers : Finset ℕ

/-- The state of a freshly constructed strategy: zero counts, empty sets. -/
def kwInit : KWState :=
  { win_counts := fun _ => 0
    loss_counts := fun _ => 0
    win_streak := 0
    loss_streak := 0
    winners := ∅
    losers := ∅ }

namespace KeepWinner

/-- `KeepWinner.register_rating(winner, loser, draw)` (the `draw` flag is not
read by this method) followed by
`TrackResultsStrategy.register_rating`, which adds the winner id to
`self.winners` and the loser id to `self.losers`.  The streak checks read the
sets before that update, as in the source. -/
def register_rating (st : KWState) (winner loser : Item) : KWState :=
  { win_counts := fun i => if i = winner.id then st.win_counts i + 1 else st.win_counts i
    loss_counts := fun i => if i = loser.id then st.loss_counts i + 1 else st.loss_counts i
    win_streak := if winner.id ∈ st.winners then st.win_streak + 1 else 1
    loss_streak := if loser.id ∈ st.losers then st.loss_streak + 1 else 1
    winners := insert winner.id st.winners
    losers := insert loser.id st.losers }

/-- The `KeepWinner.winner` property:
`self.app.winner if self.win_streak < 3 else None`.  `appWinner` is the
driver's `app.winner`. -/
def winner (st : KWState) (appWinner : Option Item) : Option Item :=
  if st.win_streak < 3 then appWinner else none

end KeepWinner

/-- A session history folded through `KeepWinner.register_rating` from the
fresh state; each entry is a `(winner, loser)` round. -/
def kwRun (h : List (Item × Item)) : KWState :=
  h.foldl (fun s p => KeepWinner.register_rating s p.1 p.2) kwInit

/-- The streak rule in the words of the spec (for comparison with the code):
a counter that resets to 1 whenever the winning id differs from the PREVIOUS
round's winning id and increments when the same id repeats.  Input: the list
of winner ids, in round order. -/
def spec_win_streak (ws : List ℕ) : ℕ :=
  (ws.foldl (fun p w => (some w, if p.1 = some w then p.2 + 1 else 1))
    ((none : Option ℕ), 0)).2

namespace PoolStrategy

/-- `PoolStrategy.next_pair` from `dual/strategy/__init__.py`:

```
winner = self.winner or None
for track in q.namedtuples():
    if self.win_counts.get(track.id, 0) >= 3: continue
    if self.loss_counts.get(track.id, 0) >= 3: continue
    if not winner: winner = track
    if track.id == winner.id or self.rounds.possibly_contains((winner, track)):
        continue
    return winner, track
return None, None
```

`rounds` is the round filter's membership test, `w` the value of the
`KeepWinner.winner` property, `q` the candidate query's result sequence. -/
def next_pair (rounds : Item → Item → Bool) (win_counts loss_counts : ℕ → ℕ) :
    Option Item → List Item → Option Item × Option Item
  | _, [] => (none, none)
  | w, t :: rest =>
    if 3 ≤ win_counts t.id then next_pair rounds win_counts loss_counts w rest
    else if 3 ≤ loss_counts t.id then next_pair rounds win_counts loss_counts w rest
    else
      let x := w.getD t
      if t.id == x.id || rounds x t then next_pair rounds win_counts loss_counts (some x) rest
      else (some x, some t)

end PoolStrategy

/-- Outcome of one embedded Python call: a value, an uncaught exception, or
non-termination surfaced by exhausted fuel. -/
inductive PyResult (α : Type) where
  | ok : α → PyResult α
  | exn : PyResult α
  | hang : PyResult α
deriving DecidableEq

/-- Is the result an uncaught exception? -/
def PyResult.isExn {α : Type} : PyResult α → Bool
  | .exn => true
  | _ => false

/-- Is the result non-termination? -/
def PyResult.isHang {α : Type} : PyResult α → Bool
  | .hang => true
  | _ => false

/-- The value of an `ok` result. -/
def PyResult.value {α : Type} : PyResult α → Option α
  | .ok a => some a
  | _ => none

namespace TopRated

/-- `TopRated.next_pair`: the query (score-descending, excluding ids that ever
won this session, `LIMIT 30`) feeds `tuple(sample(list(q.namedtuples()), 2))`;
`random.sample` raises `ValueError` when fewer than 2 items remain.  `base` is
the externally ordered query result before the winner-exclusion, `pick` models
the random choice of two elements when the sample succeeds. -/
def next_pair (winners : Finset ℕ) (pick : List Item → Item × Item)
    (base : List Item) : PyResult (Option Item × Option Item) :=
  let q := (base.filter fun t => t.id ∉ winners).take 30
  if q.length < 2 then .exn
  else .ok (some (pick q).1, some (pick q).2)

end TopRated

/-- The query environment a `Bisect` call runs against (the item store is
external; see the module docstring).  `ranking` is the refined
`_ranking_query` result: items with a non-null score, in score-descending
order.  `source` is the refined `_source_query` result in the order the
session mode gives it (`rating_count` ascending by default, score-descending
under `--top`).  `byId` returns the refreshed score of an id
(`Item.with_custom_attributes().where(Item.id == ...)`; `none` models
`DoesNotExist`).  `rounds` is the round filter's `possibly_contains` on an
ordered pair.  `top` is `app.top`. -/
structure Env where
  ranking : List Item
  source : List Item
  byId : ℕ → Option (Option ℚ)
  rounds : Item → Item → Bool
  top : Bool

/-- Membership in `Bisect._disqualified()`: ids whose loss count exceeds their
win count by 2 or more
(`{k for k, v in self.loss_counts.items() if v >= self.win_counts.get(k, 0) + 2}`;
an id satisfying the inequality has a positive loss count and hence is in the
dict). -/
def disqAt (kw : KWState) (i : ℕ) : Bool :=
  kw.win_counts i + 2 ≤ kw.loss_counts i

/-- `Bisect.ranking_query()`: the ranking with the score-null filter of
`_ranking_query` and the `Item.id.not_in(self._disqualified())` clause. -/
def rankingList (env : Env) (kw : KWState) : List Item :=
  env.ranking.filter fun t => t.score.isSome && !disqAt kw t.id

/-- `Bisect.source_query()`: the source sequence with the
`Item.id.not_in(self._disqualified())` clause. -/
def sourceList (env : Env) (kw : KWState) : List Item :=
  env.source.filter fun t => !disqAt kw t.id

/-- The mutable state of a `Bisect` instance: the span, the pivot `track`,
and the inherited `KeepWinner` bookkeeping. -/
structure BisectState where
  span : ℤ × ℤ
  track : Item
  kw : KWState

namespace Bisect

/-- The `Bisect.midpoint` property: `(self.span[0] + self.span[1]) // 2`
(Python floor division). -/
def midpoint (st : BisectState) : ℤ :=
  (st.span.1 + st.span.2).fdiv 2

/-- `Bisect.get_at_index(index)`:
`self.ranking_query().where(Item.id != self.track.id).offset(index).first()`.
SQLite treats a negative OFFSET as 0, which `Int.toNat` matches. -/
def get_at_index (env : Env) (st : BisectState) (index : ℤ) : Option Item :=
  ((rankingList env st.kw).filter fun t => t.id != st.track.id).get? index.toNat

/-- The pivot chosen by `Bisect.reset_track` from `source_query()`: its first
row (`rating_count` ascending) in the default mode, or the row at offset
`midpoint` under `--top`; after `span = (0, c)` the midpoint is
`(0 + c) // 2`. -/
def reset_pivot (env : Env) (kw : KWState) (c : ℕ) : Option Item :=
  if !env.top then (sourceList env kw).head?
  else ((sourceList env kw).drop (((0 : ℤ) + (c : ℤ)).fdiv 2).toNat).head?

/-- `Bisect.reset_track()`: set `span = (0, ranking_query().count())`, then
pick the new pivot (`reset_pivot`).  `none` models the `AttributeError`
raised when the query has no row
(`logging.info(..., self.track.title, ...)` on `None`). -/
def reset_track (env : Env) (st : BisectState) : Option BisectState :=
  match reset_pivot env st.kw (rankingList env st.kw).length with
  | none => none
  | some t =>
    some { st with span := (0, ((rankingList env st.kw).length : ℤ)), track := t }

/-- The `while self.rounds.possibly_contains((self.track, track))` loop of
`Bisect.next_pair`: walk the index downward until an unshown challenger is
found.  The loop has no bound in the source; exhausted fuel is `hang`.  A
`none` challenger crashes the membership test (`None.id`), hence `exn`. -/
def skip_shown (env : Env) (st : BisectState) :
    ℕ → ℤ → Option Item → PyResult Item
  | _, _, none => .exn
  | 0, _, some t => if env.rounds st.track t then .hang else .ok t
  | fuel + 1, idx, some t =>
    if env.rounds st.track t then
      skip_shown env st fuel (idx - 1) (get_at_index env st (idx - 1))
    else .ok t

/-- `Bisect.next_pair()`:

```
if self.span[0] == self.span[1] - 2:
    self.track, track = self.get_at_index(self.span[0]), self.get_at_index(self.span[1])
    if self.rounds.possibly_contains((self.track, track)):
        return None, None
elif self.span[1] - self.span[0] <= 1:
    self.reset_track()
    return self.next_pair(**kwargs)
else:
    if self.loss_counts.get(self.track.id, 0) >= 2:
        self.reset_track()
    else:
        self.track = Item.with_custom_attributes().where(Item.id == self.track.id) \
            .namedtuples().get()
    track = self.get_at_index(self.midpoint)
    idx = self.midpoint
    while self.rounds.possibly_contains((self.track, track)):
        idx -= 1
        track = self.get_at_index(idx)
return self.track, track
```

Both fetches of the first branch use the pre-assignment `self.track` (the
tuple's right-hand side is evaluated first); a `None` in either position
crashes the subsequent membership test.  The self-call of the second branch
consumes fuel.  The head of the third branch — reset when the pivot has two
recorded losses, else re-read its score by id (`.get()` raising
`DoesNotExist` when the row is gone) — is the named step
`refresh_or_reset`. -/
def refresh_or_reset (env : Env) (st : BisectState) : Option BisectState :=
  if 2 ≤ st.kw.loss_counts st.track.id then reset_track env st
  else match env.byId st.track.id with
    | none => none
    | some s => some { st with track := { id := st.track.id, score := s } }

/-- See `refresh_or_reset` for the docstring of the embedded method. -/
def next_pair (env : Env) :
    ℕ → BisectState → PyResult (BisectState × (Option Item × Option Item))
  | 0, _ => .hang
  | fuel + 1, st =>
    if st.span.1 = st.span.2 - 2 then
      match get_at_index env st st.span.1, get_at_index env st st.span.2 with
      | some a, some b =>
        if env.rounds a b then .ok ({ st with track := a }, (none, none))
        else .ok ({ st with track := a }, (some a, some b))
      | _, _ => .exn
    else if st.span.2 - st.span.1 ≤ 1 then
      match reset_track env st with
      | none => .exn
      | some st' => next_pair env fuel st'
    else
      match refresh_or_reset env st with
      | none => .exn
      | some st1 =>
        match skip_shown env st1 fuel (midpoint st1)
            (get_at_index env st1 (midpoint st1)) with
        | .ok c => .ok (st1, (some st1.track, some c))
        | .exn => .exn
        | .hang => .hang

/-- The span update of `Bisect.register_rating`: on a non-draw verdict,
advance to the lower half when the pivot won, retreat to the upper half when
it lost (`(self.span[0] + self.span[1]) // 2`, Python floor division). -/
def registerSpan (s : ℤ × ℤ) (pivotWon draw : Bool) : ℤ × ℤ :=
  if draw then s
  else if pivotWon then (s.1, (s.1 + s.2).fdiv 2)
  else ((s.1 + s.2).fdiv 2, s.2)

/-- `Bisect.register_rating(winner, loser, draw)`: the span update followed by
`super().register_rating` (the `KeepWinner` bookkeeping, which ignores
`draw`). -/
def register_rating (st : BisectState) (winner loser : Item) (draw : Bool) :
    BisectState :=
  { st with
    span := registerSpan st.span (winner.id == st.track.id) draw
    kw := KeepWinner.register_rating st.kw winner loser }

end Bisect

/-- A run of non-draw verdicts through the span update, starting from the
freshly reset span `[0, n)`; each entry of `verdicts` tells whether the pivot
won that round. -/
def spanRun (n : ℕ) (verdicts : List Bool) : ℤ × ℤ :=
  verdicts.foldl (fun s b => Bisect.registerSpan s b false) (0, (n : ℤ))

/-- The state on which `Bisect.__init__` invokes `reset_track`: fresh
`KeepWinner` bookkeeping; the span and track fields are not yet meaningful
(the Python attributes do not exist before `reset_track` assigns them) and
are never read by `reset_track`. -/
def bisectInit : BisectState :=
  { span := (0, 0), track := { id := 0, score := none }, kw := kwInit }

/-- The driver protocol of `dual/app/__init__.py` §`update_ratings` and
`dual/__main__.py`, as a reachability predicate over `Bisect` states.  `P`
constrains the environment each call may see (the store is external and may
change between calls; `P := fun _ _ => True` places no constraint).

* `init`: construction (`Bisect.__init__` calls `reset_track`).
* `pair_state`: any completed `next_pair` call leaves its mutated state (this
  is the state a draw verdict, or the end of the session, leaves behind).
* `round`: after `next_pair` returns a pair, the driver calls
  `register_rating(song1, song2)` on WIN and `register_rating(song2, song1)`
  on LOSE.  `update_ratings` first calls `Bisect.new_score`, whose
  `max(song1_old, song2_old + 0.01)` raises `TypeError` when either score is
  `None`, so a non-draw verdict reaches `register_rating` only with both
  scores present. -/
inductive BisectReach (P : Env → KWState → Prop) : BisectState → Prop where
  | init : ∀ env st0, P env kwInit → Bisect.reset_track env bisectInit = some st0 →
      BisectReach P st0
  | pair_state : ∀ env fuel st st1 pr, BisectReach P st → P env st.kw →
      Bisect.next_pair env fuel st = .ok (st1, pr) → BisectReach P st1
  | round : ∀ env fuel st st1 a b w l, BisectReach P st → P env st.kw →
      Bisect.next_pair env fuel st = .ok (st1, (some a, some b)) →
      ((w, l) = (a, b) ∨ (w, l) = (b, a)) →
      w.score.isSome = true → l.score.isSome = true →
      BisectReach P (Bisect.register_rating st1 w l false)

/-- Environment conditions under which the span invariant holds: every call
sees at least one eligible (scored, non-disqualified) item, the eligible
count never exceeds `B`, and every scored row of the source query is a row of
the ranking query (true of the store: both queries read the same table with
the same refinement, the ranking query adding only the score-null filter). -/
def EnvOK (B : ℕ) (env : Env) (kw : KWState) : Prop :=
  1 ≤ (rankingList env kw).length ∧ (rankingList env kw).length ≤ B ∧
    ∀ t ∈ env.source, t.score.isSome = true → t ∈ env.ranking

/-- Floor division by two coincides with Euclidean division by two. -/
theorem fdiv_two_eq (a : ℤ) : a.fdiv 2 = a / 2 :=
  Int.fdiv_eq_ediv a (by norm_num)

/-- The width of a narrowed span, as a function of the old width. -/
theorem registerSpan_width (lo hi : ℤ) (pivotWon : Bool) :
    (Bisect.registerSpan (lo, hi) pivotWon false).2
        - (Bisect.registerSpan (lo, hi) pivotWon false).1
      = if pivotWon then (hi - lo) / 2 else (hi - lo) - (hi - lo) / 2 := by
  cases pivotWon <;>
    simp only [Bisect.registerSpan, if_false, if_true, Bool.false_eq_true, ite_false, ite_true,
      fdiv_two_eq] <;>
    omega

/-- One non-draw round at width at most `2 * c` leaves width at most `c`. -/
theorem registerSpan_width_le (s : ℤ × ℤ) (b : Bool) (c : ℤ)
    (h : s.2 - s.1 ≤ 2 * c) :
    (Bisect.registerSpan s b false).2 - (Bisect.registerSpan s b false).1 ≤ c := by
  obtain ⟨lo, hi⟩ := s
  have := registerSpan_width lo hi b
  cases b <;> simp_all <;> omega

/-- Folding verdicts from a span of width at most `2 ^ k`, with at least `k`
verdicts, ends at width at most 1. -/
theorem spanRun_width_le :
    ∀ (verdicts : List Bool) (s : ℤ × ℤ) (k : ℕ),
      s.2 - s.1 ≤ 2 ^ k → k ≤ verdicts.length →
      (verdicts.foldl (fun s b => Bisect.registerSpan s b false) s).2
          - (verdicts.foldl (fun s b => Bisect.registerSpan s b false) s).1 ≤ 1
  | [], s, k, hw, hk => by
      have hk0 : k = 0 := Nat.le_zero.mp hk
      subst hk0
      simpa using hw
  | b :: vs, s, k, hw, hk => by
      simp only [List.foldl_cons]
      match k with
      | 0 =>
          refine spanRun_width_le vs _ 0 ?_ (by simp)
          refine registerSpan_width_le s b 1 ?_
          norm_num at hw
          omega
      | k + 1 =>
          have hk1 : k ≤ vs.length := by
            simpa using hk
          refine spanRun_width_le vs _ k ?_ hk1
          refine registerSpan_width_le s b (2 ^ k) ?_
          calc s.2 - s.1 ≤ 2 ^ (k + 1) := hw
            _ = 2 * 2 ^ k := by ring

/-- Claim C2: for every Bisect span `[lo, hi)` and every non-draw verdict,
`register_rating` narrows the span exactly to its lower half
`[lo, (lo+hi)/2)` when the pivot won and to its upper half `[(lo+hi)/2, hi)`
when it lost (integer division); the width `hi - lo` strictly decreases on
every non-draw round while it is at least 2, and from a freshly reset span
`[0, n)` at most `⌈log₂ n⌉` non-draw rounds leave the width at most 1. -/
theorem C2_span_narrowing :
    (∀ (st : BisectState) (w l : Item),
      (Bisect.register_rating st w l false).span
        = Bisect.registerSpan st.span (w.id == st.track.id) false)
    ∧ (∀ lo hi : ℤ,
      Bisect.registerSpan (lo, hi) true false = (lo, (lo + hi).fdiv 2)
        ∧ Bisect.registerSpan (lo, hi) false false = ((lo + hi).fdiv 2, hi))
    ∧ (∀ (s : ℤ × ℤ) (b : Bool), 2 ≤ s.2 - s.1 →
      (Bisect.registerSpan s b false).2 - (Bisect.registerSpan s b false).1
        < s.2 - s.1)
    ∧ (∀ (n : ℕ) (verdicts : List Bool), Nat.clog 2 n ≤ verdicts.length →
      (spanRun n verdicts).2 - (spanRun n verdicts).1 ≤ 1) := by
  refine ⟨fun st w l => rfl, fun lo hi => ⟨rfl, rfl⟩, ?_, ?_⟩
  · intro s b h
    obtain ⟨lo, hi⟩ := s
    have := registerSpan_width lo hi b
    cases b <;> simp_all <;> omega
  · intro n verdicts h
    have hn : (n : ℤ) ≤ 2 ^ Nat.clog 2 n := by
      have := Nat.le_pow_clog (by norm_num : (1 : ℕ) < 2) n
      exact_mod_cast this
    refine spanRun_width_le verdicts (0, (n : ℤ)) (Nat.clog 2 n) ?_ h
    simpa using hn

/-- Witness for `C2_span_narrowing` at concrete inputs: the strict decrease at
span `[0, 8)` and the width bound after `⌈log₂ 1⌉ = 0` rounds from `[0, 1)`. -/
theorem C2_span_narrowing_witness :
    (2 ≤ ((0 : ℤ), (8 : ℤ)).2 - ((0 : ℤ), (8 : ℤ)).1 ∧
      (Bisect.registerSpan ((0 : ℤ), (8 : ℤ)) true false).2
          - (Bisect.registerSpan ((0 : ℤ), (8 : ℤ)) true false).1
        < ((0 : ℤ), (8 : ℤ)).2 - ((0 : ℤ), (8 : ℤ)).1)
    ∧ (Nat.clog 2 1 ≤ ([] : List Bool).length ∧
      (spanRun 1 []).2 - (spanRun 1 []).1 ≤ 1) :=
  ⟨⟨by norm_num, C2_span_narrowing.2.2.1 ((0 : ℤ), (8 : ℤ)) true (by norm_num)⟩,
   ⟨by simp [Nat.clog_one_right],
    C2_span_narrowing.2.2.2 1 [] (by simp [Nat.clog_one_right])⟩⟩

/-- Claim C6 (amended): for all finite nonzero scores `a, b`, every outcome
in `{1, 0, 1/2}` and every sensitivity `k > 0`, the Score Model update is
zero-sum: `a' + b' = a + b` in exact arithmetic, for an arbitrary base-10
exponential.  (Python truthiness makes a present score of `0.0` take the
absent-score path, which breaks the sum — see the counterexample.) -/
theorem C6_zero_sum (tenPow : ℚ → ℚ) (a b : ℚ) (ha : a ≠ 0) (hb : b ≠ 0)
    (outcome k : ℚ) (houtcome : outcome = 1 ∨ outcome = 0 ∨ outcome = 1 / 2)
    (hk : 0 < k) :
    (elo.new_score tenPow (some a) (some b) outcome k).1
      + (elo.new_score tenPow (some a) (some b) outcome k).2 = a + b := by
  have h1 : truthy (some a) = true := by simp [truthy, ha]
  have h2 : truthy (some b) = true := by simp [truthy, hb]
  simp only [elo.new_score, h1, h2, Bool.not_true, Bool.or_self, Bool.false_or,
    if_true, ite_true, Option.getD_some]
  ring

/-- Witness for `C6_zero_sum` at `a = 1500`, `b = 1000`, outcome `1`,
`k = 4`. -/
theorem C6_zero_sum_witness :
    (1500 : ℚ) ≠ 0 ∧ (1000 : ℚ) ≠ 0 ∧ (0 : ℚ) < 4 ∧
      (elo.new_score tenPowDemo (some 1500) (some 1000) 1 4).1
        + (elo.new_score tenPowDemo (some 1500) (some 1000) 1 4).2
        = 1500 + 1000 :=
  ⟨by norm_num, by norm_num, by norm_num,
    C6_zero_sum tenPowDemo 1500 1000 (by norm_num) (by norm_num) 1 4
      (Or.inl rfl) (by norm_num)⟩

/-- Counterexample to claim C6 as stated: `0.0` is a finite input score, but
Python's `not a` treats it as absent, so both effective scores become `500`
and the sum is not preserved: `update(0, 500, 1, 4)` sums to `1000 ≠ 0 + 500`.
(The sum of the two outputs is independent of the base-10 exponential.) -/
theorem C6_zero_score_cex :
    (elo.new_score tenPowDemo (some 0) (some 500) 1 4).1
        + (elo.new_score tenPowDemo (some 0) (some 500) 1 4).2 = 1000
    ∧ (1000 : ℚ) ≠ 0 + 500 := by
  constructor
  · norm_num [elo.new_score, truthy, elo.predict, tenPowDemo]
  · norm_num

/-- Claim C4 (amended): when either input score is absent (Python: `None`, or
`0.0` by truthiness), both effective scores are set to one common value `s` —
the present score when there is one, and the population default `1000` only
when both are absent — and the fixed sensitivity `k = 2` replaces the
caller's `k` (which can make it larger, e.g. Bisect calls with `k = 1`); the
call returns normally, with the pair
`(s + 2·(outcome − predict s s 2), s − 2·(outcome − predict s s 2))`. -/
theorem C4_absent_scores (tenPow : ℚ → ℚ) (a0 b0 : Option ℚ) (outcome k0 : ℚ)
    (h : truthy a0 = false ∨ truthy b0 = false) :
    ∃ s : ℚ,
      elo.new_score tenPow a0 b0 outcome k0
          = (s + 2 * (outcome - elo.predict tenPow s s 2),
             s - 2 * (outcome - elo.predict tenPow s s 2))
        ∧ (truthy a0 = false ∧ truthy b0 = false → s = 1000)
        ∧ (∀ v : ℚ, a0 = some v → truthy a0 = true → s = v)
        ∧ (∀ v : ℚ, b0 = some v → truthy b0 = true → s = v) := by
  by_cases h1 : truthy a0 = true
  · have h2 : truthy b0 = false := by
      rcases h with h | h
      · rw [h1] at h; cases h
      · exact h
    refine ⟨a0.getD 0, ?_, ?_, ?_, ?_⟩
    · simp [elo.new_score, h1, h2]
    · rintro ⟨ha, _⟩; rw [h1] at ha; cases ha
    · intro v hv _; rw [hv]; rfl
    · intro v _ hb; rw [h2] at hb; cases hb
  · have h1f : truthy a0 = false := by
      cases hx : truthy a0
      · rfl
      · exact absurd hx h1
    by_cases h2 : truthy b0 = true
    · refine ⟨b0.getD 0, ?_, ?_, ?_, ?_⟩
      · simp [elo.new_score, h1f, h2]
      · rintro ⟨_, hb⟩; rw [h2] at hb; cases hb
      · intro v _ ha; rw [h1f] at ha; cases ha
      · intro v hv _; rw [hv]; rfl
    · have h2f : truthy b0 = false := by
        cases hx : truthy b0
        · rfl
        · exact absurd hx h2
      refine ⟨1000, ?_, fun _ => rfl, ?_, ?_⟩
      · simp [elo.new_score, h1f, h2f]
      · intro v _ ha; rw [h1f] at ha; cases ha
      · intro v _ hb; rw [h2f] at hb; cases hb

/-- Witness for `C4_absent_scores` at `a = 1500` present, `b` absent, caller
`k = 1` (Bisect's sensitivity). -/
theorem C4_absent_scores_witness :
    (truthy (some (1500 : ℚ)) = false ∨ truthy (none : Option ℚ) = false) ∧
      ∃ s : ℚ,
        elo.new_score tenPowDemo (some 1500) none 1 1
            = (s + 2 * (1 - elo.predict tenPowDemo s s 2),
               s - 2 * (1 - elo.predict tenPowDemo s s 2))
          ∧ (truthy (some (1500 : ℚ)) = false ∧ truthy (none : Option ℚ) = false
              → s = 1000)
          ∧ (∀ v : ℚ, some (1500 : ℚ) = some v
              → truthy (some (1500 : ℚ)) = true → s = v)
          ∧ (∀ v : ℚ, (none : Option ℚ) = some v
              → truthy (none : Option ℚ) = true → s = v) :=
  ⟨Or.inr rfl, C4_absent_scores tenPowDemo (some 1500) none 1 1 (Or.inr rfl)⟩

/-- Counterexample to claim C4 as stated: with `a = 1500` present and `b`
absent, the claim's substitution (both scores become `1000`) forces the two
outputs to sum to `2000`, but the code substitutes the present score for the
absent one and the outputs sum to `3000`.  (The sum is independent of the
base-10 exponential and of the outcome.) -/
theorem C4_substitution_cex :
    (elo.new_score tenPowDemo (some 1500) none 1 2).1
        + (elo.new_score tenPowDemo (some 1500) none 1 2).2 = 3000
    ∧ (3000 : ℚ) ≠ 1000 + 1000 := by
  constructor
  · norm_num [elo.new_score, truthy, elo.predict, tenPowDemo]
  · norm_num

/-- Claim C5, evaluated at the failing input: `song1.score = 10`,
`song2.score = 5`, verdict LOSE (so song2 is the winner, song1 the loser).
The code's LOSE branch gives the winner `max(song1_old, song2_old + 0.01)`
with the arguments not swapped, so the winner's new score is `10` — exactly
the loser's old score, below the floor `loser_old + 0.01 = 10.01` that the
claim (and the function's own comment) require; the claim's formula
`max(winner_old, loser_old + 0.01)` evaluates to `10.01` instead. -/
theorem C5_lose_branch_eval :
    (Bisect.new_score tenPowDemo 10 5 .lose).2 = 10
    ∧ ¬ (10 + 1 / 100 ≤ (Bisect.new_score tenPowDemo 10 5 .lose).2)
    ∧ max (5 : ℚ) (10 + 1 / 100) = 10 + 1 / 100 := by
  refine ⟨?_, ?_, ?_⟩
  · show max (10 : ℚ) (5 + 1 / 100) = 10
    norm_num
  · show ¬ ((10 : ℚ) + 1 / 100 ≤ max (10 : ℚ) (5 + 1 / 100))
    norm_num
  · norm_num

/-- Insertion never clears a bit. -/
theorem BloomFilter.bits_subset_add {κ : Type} {M K : ℕ}
    (f : BloomFilter κ M K) (x : κ) : f.bits ⊆ (f.add x).bits :=
  Finset.subset_union_left

/-- Insertion preserves the hash family. -/
theorem BloomFilter.hashes_add {κ : Type} {M K : ℕ}
    (f : BloomFilter κ M K) (x : κ) : (f.add x).hashes = f.hashes :=
  rfl

/-- A fold of insertions never clears a bit and preserves the hash family. -/
theorem RoundFilter.fold_mono (ps : List (Item × Item)) :
    ∀ f : RoundFilter,
      f.bits ⊆ (ps.foldl RoundFilter.add f).bits
        ∧ (ps.foldl RoundFilter.add f).hashes = f.hashes := by
  induction ps with
  | nil => exact fun f => ⟨Finset.Subset.refl _, rfl⟩
  | cons p ps ih =>
      intro f
      refine ⟨Finset.Subset.trans ?_ (ih (f.add p)).1, (ih (f.add p)).2⟩
      exact BloomFilter.bits_subset_add f _

/-- Claim C8 (spec-modelled round filter): once `add((a, b))` has been
called, `possibly_contains` reports the pair in either argument order after
any further insertions (no false negatives), and on every filter the test is
symmetric in the argument order (canonicalization). -/
theorem C8_round_filter :
    (∀ (f : RoundFilter) (a b : Item) (later : List (Item × Item)),
      RoundFilter.possibly_contains (later.foldl RoundFilter.add (f.add (a, b))) (a, b) = true
        ∧ RoundFilter.possibly_contains (later.foldl RoundFilter.add (f.add (a, b))) (b, a) = true)
    ∧ (∀ (f : RoundFilter) (a b : Item),
      RoundFilter.possibly_contains f (a, b) = RoundFilter.possibly_contains f (b, a)) := by
  have hsym : ∀ a b : Item, RoundFilter.as_string a b = RoundFilter.as_string b a := by
    intro a b
    simp [RoundFilter.as_string, Nat.min_comm, Nat.max_comm]
  have hmem : ∀ (f : RoundFilter) (a b : Item) (later : List (Item × Item)),
      RoundFilter.possibly_contains (later.foldl RoundFilter.add (f.add (a, b))) (a, b) = true := by
    intro f a b later
    have hmono := RoundFilter.fold_mono later (f.add (a, b))
    simp only [RoundFilter.possibly_contains, BloomFilter.possibly_contains,
      decide_eq_true_eq, hmono.2]
    intro i
    refine hmono.1 ?_
    show (f.add (a, b)).hashes i (RoundFilter.as_string a b) ∈ (f.add (a, b)).bits
    simp only [RoundFilter.add, BloomFilter.add, BloomFilter.hashes_add]
    exact Finset.mem_union_right _ (Finset.mem_image_of_mem _ (Finset.mem_univ i))
  refine ⟨fun f a b later => ⟨hmem f a b later, ?_⟩, fun f a b => ?_⟩
  · have := hmem f a b later
    simpa [RoundFilter.possibly_contains, hsym a b] using this
  · simp [RoundFilter.possibly_contains, hsym a b]

/-- The cumulative winner/loser id sets of a history fold. -/
theorem kwRun_sets :
    ∀ (h : List (Item × Item)) (st : KWState),
      (h.foldl (fun s p => KeepWinner.register_rating s p.1 p.2) st).winners
          = st.winners ∪ (h.map fun p => p.1.id).toFinset
        ∧ (h.foldl (fun s p => KeepWinner.register_rating s p.1 p.2) st).losers
          = st.losers ∪ (h.map fun p => p.2.id).toFinset := by
  intro h
  induction h with
  | nil => intro st; simp
  | cons p t ih =>
      intro st
      obtain ⟨ihw, ihl⟩ := ih (KeepWinner.register_rating st p.1 p.2)
      constructor
      · rw [List.foldl_cons, ihw]
        simp only [KeepWinner.register_rating, List.map_cons, List.toFinset_cons]
        ext i
        simp [Finset.mem_union, Finset.mem_insert, or_assoc, or_comm, or_left_comm]
      · rw [List.foldl_cons, ihl]
        simp only [KeepWinner.register_rating, List.map_cons, List.toFinset_cons]
        ext i
        simp [Finset.mem_union, Finset.mem_insert, or_assoc, or_comm, or_left_comm]

/-- Claim C9 (amended): the `KeepWinner` win streak increments exactly when
the incoming winner's id has already won at least once this session
(membership in the cumulative winners set) and resets to 1 otherwise — not
when it differs from the previous round's winner — and symmetrically for the
loss streak; the prior winner is exposed as a candidate exactly while the win
streak is below the hardcoded cap 3. -/
theorem C9_streak_rule :
    (∀ h : List (Item × Item),
      (kwRun h).winners = (h.map fun p => p.1.id).toFinset
        ∧ (kwRun h).losers = (h.map fun p => p.2.id).toFinset)
    ∧ (∀ (h : List (Item × Item)) (w l : Item),
      (KeepWinner.register_rating (kwRun h) w l).win_streak
          = (if w.id ∈ (h.map fun p => p.1.id).toFinset
              then (kwRun h).win_streak + 1 else 1)
        ∧ (KeepWinner.register_rating (kwRun h) w l).loss_streak
          = (if l.id ∈ (h.map fun p => p.2.id).toFinset
              then (kwRun h).loss_streak + 1 else 1))
    ∧ (∀ (st : KWState) (appWinner : Option Item), 3 ≤ st.win_streak →
      KeepWinner.winner st appWinner = none) := by
  have hsets : ∀ h : List (Item × Item),
      (kwRun h).winners = (h.map fun p => p.1.id).toFinset
        ∧ (kwRun h).losers = (h.map fun p => p.2.id).toFinset := by
    intro h
    obtain ⟨hw, hl⟩ := kwRun_sets h kwInit
    exact ⟨by simpa [kwRun, kwInit] using hw, by simpa [kwRun, kwInit] using hl⟩
  refine ⟨hsets, fun h w l => ?_, fun st appWinner hcap => ?_⟩
  · obtain ⟨hw, hl⟩ := hsets h
    constructor
    · show (if w.id ∈ (kwRun h).winners then (kwRun h).win_streak + 1 else 1) = _
      rw [hw]
    · show (if l.id ∈ (kwRun h).losers then (kwRun h).loss_streak + 1 else 1) = _
      rw [hl]
  · simp only [KeepWinner.winner, if_neg (by omega : ¬ st.win_streak < 3)]

/-- Witness for `C9_streak_rule`: the cap clause at a state with streak 3. -/
theorem C9_streak_rule_witness :
    3 ≤ ({ kwInit with win_streak := 3 } : KWState).win_streak ∧
      KeepWinner.winner { kwInit with win_streak := 3 }
        (some { id := 1, score := some 1 }) = none :=
  ⟨le_refl 3,
    C9_streak_rule.2.2 { kwInit with win_streak := 3 }
      (some { id := 1, score := some 1 }) (le_refl 3)⟩

/-- The three-round history refuting the previous-round reading: item 1 beats
item 2, item 3 beats item 4, then item 1 beats item 5. -/
def demoRounds : List (Item × Item) :=
  [({ id := 1, score := some 1500 }, { id := 2, score := some 1400 }),
   ({ id := 3, score := some 1300 }, { id := 4, score := some 1200 }),
   ({ id := 1, score := some 1500 }, { id := 5, score := some 1100 })]

/-- Counterexample to claim C9 as stated: after `demoRounds` the third
round's winner (id 1) differs from the second round's winner (id 3), so the
claimed rule resets the streak to 1; the code increments it to 2 because id 1
is in the cumulative winners set. -/
theorem C9_streak_cex :
    (kwRun demoRounds).win_streak = 2
    ∧ spec_win_streak (demoRounds.map fun p => p.1.id) = 1
    ∧ (2 : ℕ) ≠ 1 := by
  refine ⟨by decide, by decide, by decide⟩

/-- `reset_track` keeps the bookkeeping and establishes the fresh span, and
its pivot comes from the (disqualification-filtered) source query. -/
theorem reset_pivot_mem {env : Env} {kw : KWState} {c : ℕ} {t : Item}
    (h : Bisect.reset_pivot env kw c = some t) : t ∈ sourceList env kw := by
  unfold Bisect.reset_pivot at h
  split at h
  · exact List.mem_of_mem_head? h
  · exact List.mem_of_mem_drop (List.mem_of_mem_head? h)

/-- What a successful `reset_track` establishes. -/
theorem reset_track_ok {env : Env} {st st' : BisectState}
    (h : Bisect.reset_track env st = some st') :
    st'.kw = st.kw ∧ st'.span = (0, ((rankingList env st.kw).length : ℤ))
      ∧ st'.track ∈ sourceList env st.kw := by
  unfold Bisect.reset_track at h
  split at h
  · cases h
  · rename_i t ht
    cases h
    exact ⟨rfl, rfl, reset_pivot_mem ht⟩

/-- Whatever `get_at_index` returns is a row of the disqualification-filtered
ranking query that is not the current pivot. -/
theorem get_at_index_mem {env : Env} {st : BisectState} {idx : ℤ} {t : Item}
    (h : Bisect.get_at_index env st idx = some t) :
    t ∈ rankingList env st.kw ∧ (t.id != st.track.id) = true := by
  have hm := List.get?_mem h
  have := List.mem_filter.mp hm
  exact ⟨this.1, this.2⟩

/-- Rows of the filtered ranking query are scored and not disqualified. -/
theorem rankingList_mem {env : Env} {kw : KWState} {t : Item}
    (h : t ∈ rankingList env kw) :
    t ∈ env.ranking ∧ t.score.isSome = true ∧ disqAt kw t.id = false := by
  have := List.mem_filter.mp h
  have h2 := this.2
  simp only [Bool.and_eq_true, Bool.not_eq_true'] at h2
  exact ⟨this.1, h2.1, h2.2⟩

/-- Rows of the filtered source query are not disqualified. -/
theorem sourceList_mem {env : Env} {kw : KWState} {t : Item}
    (h : t ∈ sourceList env kw) :
    t ∈ env.source ∧ disqAt kw t.id = false := by
  have := List.mem_filter.mp h
  have h2 := this.2
  simp only [Bool.not_eq_true'] at h2
  exact ⟨this.1, h2⟩

/-- A challenger accepted by the skip loop is the initial candidate or a
`get_at_index` row. -/
theorem skip_shown_src {env : Env} {st : BisectState} :
    ∀ (fuel : ℕ) (idx : ℤ) (cur : Option Item) (c : Item),
      Bisect.skip_shown env st fuel idx cur = .ok c →
      cur = some c ∨ ∃ j : ℤ, Bisect.get_at_index env st j = some c := by
  intro fuel
  induction fuel with
  | zero =>
      intro idx cur c h
      match cur with
      | none => cases h
      | some t =>
          unfold Bisect.skip_shown at h
          split at h
          · cases h
          · cases h; exact Or.inl rfl
  | succ fuel ih =>
      intro idx cur c h
      match cur with
      | none => cases h
      | some t =>
          unfold Bisect.skip_shown at h
          split at h
          · rcases ih _ _ _ h with hc | ⟨j, hj⟩
            · exact Or.inr ⟨idx - 1, hc ▸ rfl⟩
            · exact Or.inr ⟨j, hj⟩
          · cases h; exact Or.inl rfl

/-- The refresh-or-reset step keeps the bookkeeping. -/
theorem refresh_or_reset_kw {env : Env} {st st1 : BisectState}
    (h : Bisect.refresh_or_reset env st = some st1) : st1.kw = st.kw := by
  unfold Bisect.refresh_or_reset at h
  split at h
  · exact (reset_track_ok h).1
  · split at h
    · cases h
    · cases h; rfl

/-- `next_pair` never touches the `KeepWinner` bookkeeping. -/
theorem next_pair_kw {env : Env} :
    ∀ (fuel : ℕ) (st st1 : BisectState) (pr : Option Item × Option Item),
      Bisect.next_pair env fuel st = .ok (st1, pr) → st1.kw = st.kw := by
  intro fuel
  induction fuel with
  | zero => intro st st1 pr h; cases h
  | succ fuel ih =>
      intro st st1 pr h
      rw [Bisect.next_pair] at h
      split at h
      · -- terminal comparison branch
        split at h
        · split at h <;> (cases h; rfl)
        · cases h
      · split at h
        · -- collapsed span: reset and retry
          split at h
          · cases h
          · rename_i st' hst'
            have hkw := (reset_track_ok hst').1
            exact (ih _ _ _ h).trans hkw
        · -- midpoint branch
          split at h
          · cases h
          · rename_i st1' hst1'
            have hkw1 : st1'.kw = st.kw := refresh_or_reset_kw hst1'
            split at h
            · cases h; exact hkw1
            · cases h
            · cases h

/-- The pivot after the refresh-or-reset step: a row of the filtered source
query (reset case) or the old pivot's id with fewer than two recorded losses
(refresh case). -/
theorem refresh_or_reset_track {env : Env} {st st1 : BisectState}
    (h : Bisect.refresh_or_reset env st = some st1) :
    st1.track ∈ sourceList env st.kw
      ∨ (st1.track.id = st.track.id ∧ ¬ 2 ≤ st.kw.loss_counts st.track.id) := by
  unfold Bisect.refresh_or_reset at h
  split at h
  · exact Or.inl (reset_track_ok h).2.2
  · rename_i hloss
    split at h
    · cases h
    · cases h; exact Or.inr ⟨rfl, hloss⟩

/-- Claim C7 (amended, Bisect half): whatever pair `Bisect.next_pair`
returns, neither item is disqualified — each is drawn from a query carrying
the `not_in(_disqualified())` clause, except a refreshed pivot, which the
branch guard guarantees has at most one recorded loss and hence cannot be
disqualified.  (The other strategies do not implement disqualification; see
the counterexample.) -/
theorem C7_bisect_excludes_disqualified {env : Env} :
    ∀ (fuel : ℕ) (st st1 : BisectState) (a b : Item),
      Bisect.next_pair env fuel st = .ok (st1, (some a, some b)) →
      disqAt st.kw a.id = false ∧ disqAt st.kw b.id = false := by
  intro fuel
  induction fuel with
  | zero => intro st st1 a b h; cases h
  | succ fuel ih =>
      intro st st1 a b h
      rw [Bisect.next_pair] at h
      split at h
      · -- terminal comparison branch
        split at h
        · split at h
          · cases h
          · cases h
            rename_i a' b' hlo hhi hrounds
            exact ⟨(rankingList_mem (get_at_index_mem hlo).1).2.2,
              (rankingList_mem (get_at_index_mem hhi).1).2.2⟩
        · cases h
      · split at h
        · -- collapsed span: reset and retry
          split at h
          · cases h
          · rename_i st' hst'
            have hkw := (reset_track_ok hst').1
            have := ih _ _ _ _ h
            rwa [hkw] at this
        · -- midpoint branch
          split at h
          · cases h
          · rename_i st1' hst1'
            have hkw1 : st1'.kw = st.kw := refresh_or_reset_kw hst1'
            split at h
            · cases h
              rename_i c hskip
              constructor
              · rcases refresh_or_reset_track hst1' with hmem | ⟨hid, hloss⟩
                · exact (sourceList_mem hmem).2
                · rw [hid]
                  simp only [disqAt, decide_eq_false_iff_not]
                  omega
              · rcases skip_shown_src _ _ _ _ hskip with hc | ⟨j, hj⟩
                · have := (rankingList_mem (get_at_index_mem hc).1).2.2
                  rwa [hkw1] at this
                · have := (rankingList_mem (get_at_index_mem hj).1).2.2
                  rwa [hkw1] at this
            · cases h
            · cases h

/-- A scored item. -/
def itm (n : ℕ) (s : ℚ) : Item := { id := n, score := some s }

/-- Eight scored items in score-descending order: ranks 0 through 7 of the
eligible ordering. -/
def ranking8 : List Item :=
  [itm 0 1700, itm 1 1600, itm 2 1500, itm 3 1400,
   itm 4 1300, itm 5 1200, itm 6 1100, itm 7 1000]

/-- An unscored pivot (the least-recently-rated source row; being unscored,
it does not occur in the ranking, so the `Item.id != track.id` clause of
`get_at_index` removes nothing and offsets coincide with eligible ranks). -/
def pivotU : Item := { id := 100, score := none }

/-- A store with the eight ranked items, an empty round filter, default
mode. -/
def env8 : Env :=
  { ranking := ranking8
    source := [pivotU]
    byId := fun _ => some none
    rounds := fun _ _ => false
    top := false }

/-- Bisect state with span `[2, 4)` — the terminal-comparison shape of the
end-to-end scenario. -/
def st24 : BisectState := { span := (2, 4), track := pivotU, kw := kwInit }

/-- Bisect state with span `[6, 8)`: a terminal span whose upper bound equals
the eligible count. -/
def st68 : BisectState := { span := (6, 8), track := pivotU, kw := kwInit }

/-- Claim C1, evaluated at the failing input.  From span `[2, 4)` over the
eight-item ranking the code fetches `get_at_index(span[0])` and
`get_at_index(span[1])` — offsets 2 and 4 — so the returned pair is the items
at ranks 2 and 4, not the terminal pair at ranks 2 and 3 = `hi - 1` that the
claim (and the spec's end-to-end scenario) state; the rank-3 item sits
untouched at offset 3.  Moreover, when `hi` equals the eligible count (span
`[6, 8)`), the offset-`hi` fetch returns no row and `next_pair` raises
`AttributeError` inside the round-filter membership test instead of
comparing the two remaining items. -/
theorem C1_terminal_fetch :
    (Bisect.next_pair env8 1 st24).value.map Prod.snd
        = some (some (itm 2 1500), some (itm 4 1300))
    ∧ Bisect.get_at_index env8 st24 3 = some (itm 3 1400)
    ∧ itm 4 1300 ≠ itm 3 1400
    ∧ (Bisect.next_pair env8 1 st68).isExn = true := by
  refine ⟨by decide, by decide, by decide, by decide⟩

/-- A session bookkeeping state in which item 1 has one win and item 2 has
two losses and no win — so item 2 is disqualified
(`loss_count - win_count ≥ 2`). -/
def kwDemo : KWState :=
  { win_counts := fun i => if i = 1 then 1 else 0
    loss_counts := fun i => if i = 2 then 2 else 0
    win_streak := 1
    loss_streak := 1
    winners := {1}
    losers := {2} }

/-- Counterexample to claim C7 as stated ("for every strategy"):
`PoolStrategy.next_pair` only skips items with ≥ 3 wins or ≥ 3 losses, so it
happily returns item 2, whose session loss count exceeds its win count by 2
(it is disqualified in Bisect's sense). -/
theorem C7_pool_returns_disqualified :
    PoolStrategy.next_pair (fun _ _ => false) kwDemo.win_counts kwDemo.loss_counts
        (some (itm 1 1100)) [itm 2 900]
      = (some (itm 1 1100), some (itm 2 900))
    ∧ disqAt kwDemo (itm 2 900).id = true := by
  refine ⟨by decide, by decide⟩

/-- Witness for `C7_bisect_excludes_disqualified` at the concrete terminal
call on `env8`/`st24`. -/
theorem C7_bisect_excludes_disqualified_witness :
    disqAt st24.kw (itm 2 1500).id = false
      ∧ disqAt st24.kw (itm 4 1300).id = false :=
  @C7_bisect_excludes_disqualified env8 1 st24
    { st24 with track := itm 2 1500 } (itm 2 1500) (itm 4 1300) rfl

/-- The unscored item of an initially unrated store. -/
def U0 : Item := { id := 50, score := none }

/-- A store with no scored item at all (a fresh, unrated library): the
ranking query is empty while the source query still has a row. -/
def env0 : Env :=
  { ranking := []
    source := [U0]
    byId := fun _ => none
    rounds := fun _ _ => false
    top := false }

/-- The state `Bisect.__init__` establishes on `env0`: span `(0, 0)`. -/
def st00 : BisectState := { span := (0, 0), track := U0, kw := kwInit }

/-- Counterexample to claim C3 as stated: on a store with zero eligible
scored items, construction itself (`__init__` calling `reset_track`) reaches
the span `(0, 0)`: a state with `lo ≥ hi`, reached with no exception raised
(`reset_track` found its pivot among the unscored rows). -/
theorem C3_span_collapse_cex :
    BisectReach (fun _ _ => True) st00 ∧ ¬ (st00.span.1 < st00.span.2) :=
  ⟨BisectReach.init env0 st00 trivial rfl, by decide⟩

/-- Claim C10 (amended, positive half): the strategies that do signal
exhaustion do it by returning a no-pair value: `PoolStrategy.next_pair`
returns `(None, None)` once every candidate is skipped by the saturation
cutoffs, and Bisect's terminal comparison returns `(None, None)` when the
round filter reports the fetched pair as already shown.  (TopRated raises
and Bisect's collapse retry recurses unboundedly — see the
counterexample.) -/
theorem C10_exhaustion_none :
    (∀ (rounds : Item → Item → Bool) (wc lc : ℕ → ℕ) (w : Option Item)
        (q : List Item),
      (∀ t ∈ q, 3 ≤ wc t.id ∨ 3 ≤ lc t.id) →
      PoolStrategy.next_pair rounds wc lc w q = (none, none))
    ∧ (∀ (env : Env) (fuel : ℕ) (st : BisectState) (a b : Item),
      st.span.1 = st.span.2 - 2 →
      Bisect.get_at_index env st st.span.1 = some a →
      Bisect.get_at_index env st st.span.2 = some b →
      env.rounds a b = true →
      Bisect.next_pair env (fuel + 1) st
        = .ok ({ st with track := a }, (none, none))) := by
  constructor
  · intro rounds wc lc w q
    induction q generalizing w with
    | nil => intro _; rfl
    | cons t rest ih =>
        intro hall
        have ht := hall t (List.mem_cons_self t rest)
        have hrest : ∀ u ∈ rest, 3 ≤ wc u.id ∨ 3 ≤ lc u.id :=
          fun u hu => hall u (List.mem_cons_of_mem t hu)
        show PoolStrategy.next_pair rounds wc lc w (t :: rest) = (none, none)
        rw [PoolStrategy.next_pair]
        split
        · exact ih w hrest
        · split
          · exact ih w hrest
          · rename_i hw hl
            cases ht with
            | inl h => exact absurd h hw
            | inr h => exact absurd h hl
  · intro env fuel st a b hterm ha hb hrounds
    rw [Bisect.next_pair, if_pos hterm, ha, hb]
    simp [hrounds]

/-- `env8` with a round filter that reports every pair as already shown. -/
def env8t : Env := { env8 with rounds := fun _ _ => true }

/-- Witness for `C10_exhaustion_none`: a fully saturated pool, and the
terminal comparison on `env8t`/`st24` with the pair already shown. -/
theorem C10_exhaustion_none_witness :
    ((∀ t ∈ [itm 8 500], 3 ≤ (fun _ : ℕ => 3) t.id ∨ 3 ≤ (fun _ : ℕ => 0) t.id)
      ∧ PoolStrategy.next_pair (fun _ _ => false) (fun _ => 3) (fun _ => 0)
          none [itm 8 500] = (none, none))
    ∧ (st24.span.1 = st24.span.2 - 2
      ∧ Bisect.next_pair env8t 1 st24
          = .ok ({ st24 with track := itm 2 1500 }, (none, none))) :=
  ⟨⟨by decide,
    C10_exhaustion_none.1 (fun _ _ => false) (fun _ => 3) (fun _ => 0) none
      [itm 8 500] (by decide)⟩,
   ⟨by decide,
    C10_exhaustion_none.2 env8t 0 st24 (itm 2 1500) (itm 4 1300)
      (by decide) rfl rfl rfl⟩⟩

/-- Counterexample to claim C10 as stated: `TopRated.next_pair` on a store
with a single eligible candidate raises `ValueError` (from `random.sample`)
instead of returning a no-pair value, and Bisect's collapsed-span retry on a
store with no scored item recurses without terminating (a `RecursionError`
in Python, here fuel exhaustion) instead of signalling exhaustion. -/
theorem C10_exhaustion_cex :
    TopRated.next_pair ∅ (fun l => (l.headD U0, l.headD U0)) [itm 9 1500] = .exn
    ∧ (Bisect.next_pair env0 5 st00).isHang = true :=
  ⟨rfl, rfl⟩

/-- The claimed span invariant, with `B` a bound on the eligible count. -/
def SpanInv (B : ℕ) (st : BisectState) : Prop :=
  0 ≤ st.span.1 ∧ st.span.1 < st.span.2 ∧ st.span.2 ≤ (B : ℤ)

/-- Narrowing a span of width at least 2 preserves the invariant. -/
theorem registerSpan_inv {B : ℕ} {lo hi : ℤ} (b : Bool)
    (h0 : 0 ≤ lo) (h1 : lo < hi) (h2 : hi ≤ (B : ℤ)) (hw : 2 ≤ hi - lo) :
    0 ≤ (Bisect.registerSpan (lo, hi) b false).1
      ∧ (Bisect.registerSpan (lo, hi) b false).1
          < (Bisect.registerSpan (lo, hi) b false).2
      ∧ (Bisect.registerSpan (lo, hi) b false).2 ≤ (B : ℤ) := by
  cases b <;>
    simp only [Bisect.registerSpan, Bool.false_eq_true, if_false, if_true,
      ite_false, ite_true, fdiv_two_eq] <;>
    refine ⟨?_, ?_, ?_⟩ <;> omega

/-- `register_rating` on a non-draw verdict preserves the invariant when the
span it narrows has width at least 2. -/
theorem register_rating_inv {B : ℕ} {st : BisectState} (w l : Item)
    (hInv : SpanInv B st) (hw : 2 ≤ st.span.2 - st.span.1) :
    SpanInv B (Bisect.register_rating st w l false) := by
  obtain ⟨h0, h1, h2⟩ := hInv
  exact @registerSpan_inv B st.span.1 st.span.2
    (w.id == st.track.id) h0 h1 h2 hw

/-- A length-1 list containing `t` is `[t]`. -/
theorem length_one_mem {t : Item} {l : List Item}
    (hlen : l.length = 1) (hmem : t ∈ l) : l = [t] := by
  obtain ⟨a, rfl⟩ := List.length_eq_one.mp hlen
  have ht : t = a := by simpa using hmem
  rw [ht]

/-- The skip loop crashes immediately on a missing challenger. -/
theorem skip_shown_none {env : Env} {st : BisectState} (fuel : ℕ) (idx : ℤ) :
    Bisect.skip_shown env st fuel idx none = .exn := by
  cases fuel <;> rfl

/-- A freshly reset span `(0, c)` with `1 ≤ c ≤ B` satisfies the
invariant. -/
theorem spanInv_reset {B : ℕ} {st : BisectState} (c : ℕ)
    (hspan : st.span = (0, (c : ℤ))) (h1 : 1 ≤ c) (h2 : c ≤ B) :
    SpanInv B st := by
  have e1 : st.span.1 = 0 := by rw [hspan]
  have e2 : st.span.2 = (c : ℤ) := by rw [hspan]
  refine ⟨?_, ?_, ?_⟩ <;> omega

/-- On a store satisfying `EnvOK`, a completed `next_pair` call leaves the
invariant intact, and whenever it returns a pair, either the state it leaves
has span width at least 2 (so the following `register_rating` narrows a
2-wide-or-wider span) or the returned pivot has no score (in which case the
driver's `Bisect.new_score` raises before `register_rating` is reached). -/
theorem next_pair_inv {B : ℕ} {env : Env} :
    ∀ (fuel : ℕ) (st st1 : BisectState) (pr : Option Item × Option Item),
      EnvOK B env st.kw → SpanInv B st →
      Bisect.next_pair env fuel st = .ok (st1, pr) →
      SpanInv B st1
        ∧ ∀ a b : Item, pr = (some a, some b) →
            2 ≤ st1.span.2 - st1.span.1 ∨ a.score.isSome = false := by
  intro fuel
  induction fuel with
  | zero => intro st st1 pr hE hI h; cases h
  | succ fuel ih =>
      intro st st1 pr hE hI h
      rw [Bisect.next_pair] at h
      split at h
      · -- terminal comparison branch: the span is untouched and has width 2
        rename_i hterm
        split at h
        · split at h
          · cases h
            refine ⟨hI, ?_⟩
            intro a b hpr
            cases hpr
          · cases h
            rename_i a' b' hlo hhi hrounds
            refine ⟨hI, ?_⟩
            intro a b hpr
            cases hpr
            left
            show 2 ≤ st.span.2 - st.span.1
            omega
        · cases h
      · rename_i hterm
        split at h
        · -- collapsed span: reset re-establishes the invariant, then retry
          rename_i hcol
          split at h
          · cases h
          · rename_i st' hst'
            obtain ⟨hkw, hspan, hmem⟩ := reset_track_ok hst'
            have hE' : EnvOK B env st'.kw := by rw [hkw]; exact hE
            have hI' : SpanInv B st' := spanInv_reset _ hspan hE.1 hE.2.1
            exact ih st' st1 pr hE' hI' h
        · -- midpoint branch
          rename_i hcol
          split at h
          · cases h
          · rename_i st1' hst1'
            have hkw1 := refresh_or_reset_kw hst1'
            split at h
            · rename_i c hskip
              cases h
              unfold Bisect.refresh_or_reset at hst1'
              split at hst1'
              · -- pivot unreliable: reset mid-call
                obtain ⟨hkw, hspan, hmem⟩ := reset_track_ok hst1'
                refine ⟨spanInv_reset _ hspan hE.1 hE.2.1, ?_⟩
                intro a b hpr
                cases hpr
                by_cases hc2 : 2 ≤ (rankingList env st.kw).length
                · left
                  have e2 : st1.span.2 = ((rankingList env st.kw).length : ℤ) := by
                    rw [hspan]
                  have e1 : st1.span.1 = 0 := by rw [hspan]
                  omega
                · right
                  by_contra hsome
                  have hsome' : st1.track.score.isSome = true := by
                    cases hx : st1.track.score.isSome
                    · exact absurd hx hsome
                    · rfl
                  -- the scored pivot is the single ranked row, so the
                  -- challenger query is empty and the skip loop crashes
                  have hlen : (rankingList env st.kw).length = 1 := by
                    have := hE.1
                    omega
                  obtain ⟨hsrc, hdq⟩ := sourceList_mem hmem
                  have hrk : st1.track ∈ rankingList env st.kw := by
                    refine List.mem_filter.mpr ⟨hE.2.2 _ hsrc hsome', ?_⟩
                    simp [hsome', hdq]
                  have hsingle : rankingList env st.kw = [st1.track] :=
                    length_one_mem hlen hrk
                  have hget : ∀ j : ℤ, Bisect.get_at_index env st1 j = none := by
                    intro j
                    unfold Bisect.get_at_index
                    rw [hkw1, hsingle]
                    simp
                  rw [hget, skip_shown_none] at hskip
                  cases hskip
              · split at hst1'
                · cases hst1'
                · cases hst1'
                  -- refresh: the span is unchanged and has width at least 3
                  refine ⟨hI, ?_⟩
                  intro a b hpr
                  cases hpr
                  left
                  show 2 ≤ st.span.2 - st.span.1
                  omega
            · cases h
            · cases h

/-- Claim C3 (amended): along the driver protocol, in every environment whose
calls each see at least one eligible scored item, at most `B` of them, and a
source query consistent with the ranking query, every reachable Bisect state
satisfies `0 ≤ lo < hi ≤ B` — the upper bound is the cap on the eligible
count seen across the session, not the current eligible count.  (With zero
eligible scored items, construction itself reaches `lo = hi = 0`; see the
counterexample.) -/
theorem C3_span_invariant (B : ℕ) (st : BisectState)
    (h : BisectReach (EnvOK B) st) :
    0 ≤ st.span.1 ∧ st.span.1 < st.span.2 ∧ st.span.2 ≤ (B : ℤ) := by
  induction h with
  | init env st0 hP hreset =>
      obtain ⟨hkw, hspan, hmem⟩ := reset_track_ok hreset
      exact spanInv_reset _ hspan hP.1 hP.2.1
  | pair_state env fuel st st1 pr hre hP hnp ihre =>
      exact (next_pair_inv fuel st st1 pr hP ihre hnp).1
  | round env fuel st st1 a b w l hre hP hnp hwl hw hl ihre =>
      obtain ⟨hI1, hwide⟩ := next_pair_inv fuel st st1 _ hP ihre hnp
      have h2 : 2 ≤ st1.span.2 - st1.span.1 := by
        rcases hwide a b rfl with h2 | hnone
        · exact h2
        · rcases hwl with he | he
          · injection he with hwa hlb
            rw [← hwa] at hnone
            simp [hnone] at hw
          · injection he with hwb hla
            rw [← hla] at hnone
            simp [hnone] at hl
      exact register_rating_inv w l hI1 h2

/-- A store with a single scored item. -/
def env1 : Env :=
  { ranking := [itm 1 1200]
    source := [itm 1 1200]
    byId := fun _ => some (some 1200)
    rounds := fun _ _ => false
    top := false }

/-- The state construction establishes on `env1`: span `(0, 1)`. -/
def st11 : BisectState := { span := (0, 1), track := itm 1 1200, kw := kwInit }

/-- Witness for `C3_span_invariant`: the freshly constructed state on the
one-item store. -/
theorem C3_span_invariant_witness :
    0 ≤ st11.span.1 ∧ st11.span.1 < st11.span.2 ∧ st11.span.2 ≤ ((1 : ℕ) : ℤ) :=
  C3_span_invariant 1 st11
    (BisectReach.init env1 st11 ⟨by decide, by decide, by decide⟩ rfl)
